import Mathlib

attribute [local semireducible] Rat.add Rat.mul Rat.sub Rat.inv

/-!
Shallow embedding of the hloc candidate-matching and measurement-verification
code (src/data_processing/util.py, src/find_and_evaluate/find_locations_drop.py,
src/find_and_evaluate/check_domain_locations.py) together with proofs about it.

Conventions used throughout:
* Python floats (RTTs, kilometre distances) are modelled as rationals `ℚ`.
* The floating-point geographic distance computations
  (`GPSLocation.gps_distance_equirectangular` and the precomputed `COORDS`
  distance tables) are abstracted into explicit distance-oracle parameters:
  every place the Python code asks "how far is X from Y" the embedding consults
  a caller-supplied `ℚ`-valued function.  The control flow around the distances
  is embedded faithfully.
* Location identifiers (Python uses a mix of ints and strings such as
  `'munich'`) are modelled uniformly as `ℕ`.
* External-service interactions (RIPE Atlas calls, ssh pings, randomness) are
  modelled as oracle inputs consumed in program order.
* String utilities that the Lean core library implements by well-founded
  recursion (`String.splitOn`, `String.replace`, sorting) are re-implemented
  structurally below so that all definitions reduce inside `decide`/`rfl`.
-/

/-- Stable insertion of `x` after every already-placed element `y` with
`le y x`; used to model Python's stable `list.sort`. -/
def sInsert (le : α → α → Bool) (x : α) : List α → List α
  | [] => [x]
  | y :: ys => if le y x then y :: sInsert le x ys else x :: y :: ys

/-- Stable ascending sort (model of Python's `list.sort(key=...)`, which is a
stable sort): elements are inserted left to right, each one landing after all
earlier elements whose key is `≤` its own. -/
def stableSort (le : α → α → Bool) (l : List α) : List α :=
  l.foldl (fun acc x => sInsert le x acc) []

/-- One step of character-level replacement with a fuel bound; replaces every
non-overlapping occurrence of `pat` left to right (model of Python
`str.replace`).  The fuel is the length of the scanned list, which suffices
because every step consumes at least one character. -/
def replaceFuel (pat rep : List Char) : ℕ → List Char → List Char
  | 0, cs => cs
  | _ + 1, [] => []
  | n + 1, c :: cs =>
    if pat ≠ [] && pat.isPrefixOf (c :: cs) then
      rep ++ replaceFuel pat rep n ((c :: cs).drop pat.length)
    else
      c :: replaceFuel pat rep n cs

/-- Model of Python `str.replace(pat, rep)` (replace all occurrences). -/
def pyReplace (s pat rep : String) : String :=
  ⟨replaceFuel pat.data rep.data s.data.length s.data⟩

/-- Character-level split on `'.'`, returning the groups between dots
(model of Python `str.split('.')`). -/
def splitCharsDot : List Char → List (List Char)
  | [] => [[]]
  | c :: rest =>
    match splitCharsDot rest with
    | [] => [[c]]
    | g :: gs => if c = '.' then [] :: g :: gs else (c :: g) :: gs

/-- Model of Python `domain_name.split('.')`. -/
def splitOnDot (s : String) : List String :=
  (splitCharsDot s.data).map fun g => ⟨g⟩

/-- ASCII-letter test, the character class `[a-zA-Z]` of the rule patterns. -/
def isAsciiLetter (c : Char) : Bool :=
  ('a' ≤ c && c ≤ 'z') || ('A' ≤ c && c ≤ 'Z')

/-!
## `LocationCodeType` (util.py lines 227-257)

The enum of location-code categories and its `regex` property.  The `regex`
property builds, from `base = '[a-zA-Z]'`, the pattern `base + '{3}'` for
`iata`, `base + '{4}'` for `icao`, `base + '{6}'` for `clli`,
`base + '{5}'` for `locode` and `'[a-zA-Z]+'` for `geonames`, wraps it in a
named group `(?P<type>...)`, and falls into an error branch returning `None`
for `faa`.  The repetition structure is kept as a small AST (`ClassPat`) with
a renderer producing the exact pattern strings the Python code produces and an
operational matcher giving the pattern its regular-expression semantics.
-/

/-- The Python enum `LocationCodeType`. -/
inductive LocationCodeType
  | iata | icao | faa | clli | locode | geonames
deriving DecidableEq, Repr

/-- The numeric `.value` of each enum member (util.py lines 229-234). -/
def LocationCodeType.val : LocationCodeType → ℕ
  | .iata => 0
  | .icao => 1
  | .faa => 2
  | .clli => 3
  | .locode => 4
  | .geonames => 5

/-- Repetition applied to the character class `[a-zA-Z]`: either an exact
brace-count or the `+` quantifier. -/
inductive ClassPat
  | repExact (k : ℕ)
  | repPlus
deriving DecidableEq, Repr

/-- Render a `ClassPat` to the literal pattern text the Python code builds. -/
def ClassPat.render : ClassPat → String
  | .repExact k => "[a-zA-Z]" ++ "\x7b" ++ toString k ++ "\x7d"
  | .repPlus => "[a-zA-Z]" ++ "+"

/-- Operational matcher for a `ClassPat` against a whole character list:
`[a-zA-Z]{k}` consumes exactly `k` letters, `[a-zA-Z]+` one or more. -/
def ClassPat.acceptsChars : ClassPat → List Char → Bool
  | .repExact 0, [] => true
  | .repExact 0, _ :: _ => false
  | .repExact (_ + 1), [] => false
  | .repExact (k + 1), c :: cs => isAsciiLetter c && ClassPat.acceptsChars (.repExact k) cs
  | .repPlus, [] => false
  | .repPlus, [c] => isAsciiLetter c
  | .repPlus, c :: c' :: cs => isAsciiLetter c && ClassPat.acceptsChars .repPlus (c' :: cs)

/-- The repetition pattern chosen per code type by `LocationCodeType.regex`
(util.py lines 236-257); `faa` hits the error branch and yields no pattern. -/
def LocationCodeType.classPat : LocationCodeType → Option ClassPat
  | .iata => some (.repExact 3)
  | .icao => some (.repExact 4)
  | .clli => some (.repExact 6)
  | .locode => some (.repExact 5)
  | .geonames => some .repPlus
  | .faa => none

/-- The string returned by the `LocationCodeType.regex` property:
`'(?P<type>' + pattern + ')'`. -/
def LocationCodeType.regexStr (t : LocationCodeType) : Option String :=
  t.classPat.map fun p => "(?P<type>" ++ p.render ++ ")"

/-- `DRoPRule.regex_pattern_rules` compiles one rule by substituting the
placeholder: `rule.rule.replace('{}', rule.type.regex)` (util.py line 957). -/
def compileRuleStr (template : String) (t : LocationCodeType) : Option String :=
  t.regexStr.map fun p => pyReplace template "\x7b\x7d" p

/-- The spec phrase "anchored regex", read off the pattern text: the pattern
is anchored when it starts with `^` or ends with `$`.  (This definition
follows the specification's words, for comparison with the compiled
patterns.) -/
def specAnchoredPattern (p : String) : Prop :=
  p.data.head? = some '^' ∨ p.data.getLast? = some '$'

instance (p : String) : Decidable (specAnchoredPattern p) := by
  unfold specAnchoredPattern; infer_instance

/-!
## Compiled-rule search semantics

A compiled rule regex is a sequence of literal characters with one placeholder
hole (the `(?P<type>...)` group).  `matchAt` matches the sequence at the start
of a character list (the remainder of the subject may be anything, as with
`re.search`), returning the text captured by the first hole; `regexSearch`
tries every start position left to right, which is exactly the leftmost-match
semantics of Python's `re.search`.  The `+` quantifier is matched greedily
with backtracking (longest feasible letter run first), as the `re` engine
does.
-/

/-- One piece of a compiled rule pattern: a literal character, or the
placeholder hole carrying the code type's character-class pattern. -/
inductive TPiece
  | lit (c : Char)
  | hole
deriving DecidableEq, Repr

/-- Match the pieces at the start of `cs`; `cp` is the class pattern standing
in the hole.  Returns `some cap` on success where `cap` is the capture of the
first hole (if any). -/
def matchAt : List TPiece → ClassPat → List Char → Option (Option String)
  | [], _, _ => some none
  | .lit _ :: _, _, [] => none
  | .lit c :: ps, cp, d :: ds => if c = d then matchAt ps cp ds else none
  | .hole :: ps, cp, cs =>
    match cp with
    | .repExact k =>
      let tk := cs.take k
      if tk.length = k && tk.all isAsciiLetter then
        (matchAt ps cp (cs.drop k)).map fun c? => some (c?.getD ⟨tk⟩)
      else
        none
    | .repPlus =>
      let r := (cs.takeWhile isAsciiLetter).length
      ((List.range r).reverse.map (· + 1)).findSome? fun l =>
        (matchAt ps cp (cs.drop l)).map fun c? => some (c?.getD ⟨cs.take l⟩)

/-- Leftmost search of the compiled pattern in `cs` (Python `regex.search`):
try each start position in order and return the first hole's capture. -/
def searchChars (ps : List TPiece) (cp : ClassPat) : List Char → Option String
  | [] =>
    match matchAt ps cp [] with
    | some c? => some (c?.getD "")
    | none => none
  | c :: t =>
    match matchAt ps cp (c :: t) with
    | some c? => some (c?.getD "")
    | none => searchChars ps cp t

/-- Search a compiled rule pattern in a string. -/
def regexSearch (ps : List TPiece) (cp : ClassPat) (s : String) : Option String :=
  searchChars ps cp s.data

/-!
## `DRoPRule.create_rule_from_yaml_dict` (util.py lines 980-1001)

Constructing the internal rule set from one external DRoP YAML document.  A
YAML rule record is modelled with `mapping_required : Option ℤ` (`none` means
the key is absent, so that Python's `rule['mapping_required']` raises
`KeyError`) and its `regexp` string.  Two Python runtime errors are modelled
explicitly:

* a missing `mapping_required` key raises `KeyError`;
* when `mapping_required != 1` the code executes
  `logging.warning('mapping required != 1 for ' + rule)`, concatenating a
  `str` with a `dict`, which raises `TypeError` before the rule could be
  skipped.
-/

/-- One rule record of a DRoP YAML document. -/
structure YamlRule where
  mapping_required : Option ℤ
  regexp : String
deriving DecidableEq, Repr

/-- A DRoP YAML document (`name`, `source`, `rules`). -/
structure YamlDoc where
  name : String
  source : String
  rules : List YamlRule
deriving DecidableEq, Repr

/-- The internal `DRoPRule` object: name, source and the accumulated
`(rule template, code type)` pairs added by `add_rule`. -/
structure DRoPRuleS where
  name : String
  source : String
  rules : List (String × LocationCodeType)
deriving DecidableEq, Repr

/-- Python runtime errors relevant to rule-set construction. -/
inductive PyErr
  | keyError
  | typeError
deriving DecidableEq, Repr

/-- Match `DROP_RULE_TYPE_REGEX = <<(?P<type>[a-z]*)>>` at the start of `cs`:
two `<`, a (maximal) run of lowercase letters, two `>`.  Returns the full
matched text and the `type` group. -/
def drtsAt (cs : List Char) : Option (String × String) :=
  match cs with
  | '<' :: '<' :: rest =>
    let run := rest.takeWhile fun c => 'a' ≤ c && c ≤ 'z'
    match rest.drop run.length with
    | '>' :: '>' :: _ => some (⟨'<' :: '<' :: (run ++ ['>', '>'])⟩, ⟨run⟩)
    | _ => none
  | _ => none

/-- Leftmost `DROP_RULE_TYPE_REGEX.search` over a character list. -/
def drtsChars : List Char → Option (String × String)
  | [] =>
    match drtsAt [] with
    | some m => some m
    | none => none
  | c :: t =>
    match drtsAt (c :: t) with
    | some m => some m
    | none => drtsChars t

/-- `DROP_RULE_TYPE_REGEX.search(rule['regexp'])`. -/
def dropRuleTypeSearch (s : String) : Option (String × String) :=
  drtsChars s.data

/-- The category-tag dispatch of `create_rule_from_yaml_dict`: `'pop'` maps to
`geonames`; `'iata'`, `'icao'`, `'locode'`, `'clli'` map to themselves via
`getattr`; anything else is unrecognized. -/
def dropTypeOf (tag : String) : Option LocationCodeType :=
  if tag = "pop" then some .geonames
  else if tag = "iata" then some .iata
  else if tag = "icao" then some .icao
  else if tag = "locode" then some .locode
  else if tag = "clli" then some .clli
  else none

/-- Processing of one YAML rule record inside the `for rule in dct['rules']`
loop of `create_rule_from_yaml_dict`. -/
def yamlRuleStep (acc : List (String × LocationCodeType)) (rule : YamlRule) :
    Except PyErr (List (String × LocationCodeType)) :=
  match rule.mapping_required with
  | none => .error .keyError
  | some v =>
    if v ≠ 1 then
      .error .typeError
    else
      match dropRuleTypeSearch rule.regexp with
      | none => .ok acc
      | some (full, tag) =>
        match dropTypeOf tag with
        | none => .ok acc
        | some t => .ok (acc ++ [(pyReplace rule.regexp full "\x7b\x7d", t)])

/-- `DRoPRule.create_rule_from_yaml_dict(dct)` (util.py lines 980-1001):
builds `DRoPRule(dct['name'][5:], dct['source'])` and folds the rule records;
a Python runtime error anywhere aborts construction. -/
def create_rule_from_yaml_dict (dct : YamlDoc) : Except PyErr DRoPRuleS := do
  let rules ← dct.rules.foldlM yamlRuleStep []
  return ⟨dct.name.drop 5, dct.source, rules⟩


/-!
## The Domain data model (util.py lines 635-805, 808-874)

`Domain.__init__` splits the name on `.` and stores the labels reversed, so
index 0 is the top-level label and the last index the most-specific (host)
label.  `Domain.all_matches` walks `domain_labels[::-1]` (most-specific
first), collecting each label's matches while skipping location ids already
seen.  (The Python attribute `matches` is called `label_matches` here because
`matches` is a reserved word in Lean.)
-/

/-- `DomainLabelMatch`: the fields used by matching and verification. -/
structure DomainLabelMatchS where
  location_id : ℕ
  code_type : LocationCodeType
deriving DecidableEq, Repr

/-- `DomainLabel`: the literal label and its matches. -/
structure DomainLabelS where
  label : String
  label_matches : List DomainLabelMatchS
deriving DecidableEq, Repr

/-- `Domain`: name plus the ordered labels (index 0 = top-level label). -/
structure DomainS where
  domain_name : String
  domain_labels : List DomainLabelS
deriving DecidableEq, Repr

/-- `Domain.__init__`'s `create_labels`: split on `.` and reverse, each label
starting with no matches. -/
def mkDomain (name : String) : DomainS :=
  ⟨name, ((splitOnDot name).reverse).map fun l => ⟨l, []⟩⟩

/-- Attach matches to the labels of a domain by label text (helper used to
build concrete test domains; the Python code attaches matches to the labels
during the matching stage). -/
def withMatches (d : DomainS) (f : String → List DomainLabelMatchS) : DomainS :=
  ⟨d.domain_name, d.domain_labels.map fun l => ⟨l.label, f l.label⟩⟩

/-- The inner `for match in label.matches` loop of `Domain.all_matches`:
threads the set of already-seen location ids and the accumulated output. -/
def amInner : List DomainLabelMatchS → List ℕ → List DomainLabelMatchS →
    List ℕ × List DomainLabelMatchS
  | [], seen, acc => (seen, acc)
  | m :: rest, seen, acc =>
    if m.location_id ∈ seen then amInner rest seen acc
    else amInner rest (m.location_id :: seen) (acc ++ [m])

/-- The outer `for label in self.domain_labels[::-1]` loop of
`Domain.all_matches`. -/
def amOuter : List DomainLabelS → List ℕ → List DomainLabelMatchS →
    List DomainLabelMatchS
  | [], _, acc => acc
  | lbl :: rest, seen, acc =>
    let p := amInner lbl.label_matches seen acc
    amOuter rest p.1 p.2

/-- `Domain.all_matches` (util.py lines 682-692). -/
def DomainS.all_matches (d : DomainS) : List DomainLabelMatchS :=
  amOuter d.domain_labels.reverse [] []

/-- Generic first-occurrence deduplication by location id: keeps a match when
its location id is not in `seen`, recording it afterwards.  This is the
specification's description ("duplicate matches to the same location id are
collapsed, keeping the first occurrence"). -/
def dedupKeepFirst (seen : List ℕ) : List DomainLabelMatchS → List DomainLabelMatchS
  | [] => []
  | m :: rest =>
    if m.location_id ∈ seen then dedupKeepFirst seen rest
    else m :: dedupKeepFirst (m.location_id :: seen) rest

/-- The seen-set after scanning a list of matches. -/
def seenUpd (seen : List ℕ) : List DomainLabelMatchS → List ℕ
  | [] => seen
  | m :: rest =>
    if m.location_id ∈ seen then seenUpd seen rest
    else seenUpd (m.location_id :: seen) rest

/-!
## The find-stage scan `search_in_file` (find_locations_drop.py lines 103-126)

For one domain the code applies every compiled rule pattern to the whole
`domain.domain_name` via `regex.search`, extracts the `type` group, looks the
captured string up in the code trie filtered by the rule's code-type value,
and appends one match per returned location.  The trie is modelled as a
function from the captured string to the `(location id, code-type value)`
pairs stored under it.
-/

/-- Modelled from the spec: the per-match record `util.DomainMatch` created by
`search_in_file` is absent from the sources in `src/` (only its constructor
call appears); per the spec's `LocationMatch` description it carries the
location id, the code type and the matched substring. -/
structure SIFMatchS where
  location_id : ℕ
  code_type : LocationCodeType
  code : String
deriving DecidableEq, Repr

/-- One compiled rule pattern as iterated over `rule.regex_pattern_rules`
(the pairs `(regex, code_type)`); the rule template is kept structurally as
pieces so that the compiled regex can be executed. -/
structure SRuleS where
  pieces : List TPiece
  ctype : LocationCodeType
deriving DecidableEq, Repr

/-- The per-domain body of `search_in_file` (find_locations_drop.py lines
109-123): every rule pattern is searched in the full `domain.domain_name`. -/
def searchInFileDomain (rules : List SRuleS) (trie : String → List (ℕ × ℕ))
    (d : DomainS) : List SIFMatchS :=
  rules.foldl
    (fun acc rule =>
      match regexSearch rule.pieces (rule.ctype.classPat.getD (.repExact 0))
          d.domain_name with
      | none => acc
      | some mstr =>
        acc ++ ((trie mstr).filter fun l => l.2 = rule.ctype.val).map
          fun l => ⟨l.1, rule.ctype, mstr⟩)
    []

/-!
## `sort_matches` (check_domain_locations.py lines 574-612)

Candidate ranking.  Anchor results without an RTT are dropped, the rest are
stably sorted by ascending RTT.  A candidate survives when its distance to
every anchor is at most `rtt * 100`; a surviving candidate is put in the group
of its first distance-minimal anchor, and the groups are emitted by walking
the sorted anchor list and appending, for each anchor entry, the group stored
under that entry's location id.  The two distance sources of the Python code
(the precomputed `COORDS` tables for the three chair servers and
`gps_distance_equirectangular` for everything else) are merged into the
distance oracle `adist : anchor location id → match location id → ℚ`.
-/

/-- `LocationResult`: anchor location id and (nullable) RTT. -/
structure LocationResultS where
  location_id : ℕ
  rtt : Option ℚ
deriving DecidableEq, Repr

/-- The first element of `x :: xs` minimising `f` (Python
`min(..., key=...)` keeps the first minimal element). -/
def minFirstBy (f : α → ℚ) (x : α) (xs : List α) : α :=
  xs.foldl (fun b y => if f y < f b then y else b) x

/-- The filtered, RTT-ascending anchor list built at the top of
`sort_matches`. -/
def sortedResults (results : List LocationResultS) : List LocationResultS :=
  stableSort (fun a b => decide (a.rtt.getD 0 ≤ b.rtt.getD 0))
    (results.filter fun r => r.rtt.isSome)

/-- Feasibility of a match against every anchor of `rs`: the loop breaks (and
the candidate is skipped) as soon as `distance > rtt * 100` for some anchor,
so the candidate survives exactly when all distances are within the bound. -/
def feasibleAll (adist : ℕ → ℕ → ℚ) (rs : List LocationResultS)
    (m : DomainLabelMatchS) : Bool :=
  rs.all fun r => decide (adist r.location_id m.location_id ≤ r.rtt.getD 0 * 100)

/-- The location id of the group `sort_matches` files a match under: its first
distance-minimal anchor's location id, defined only for feasible matches. -/
def nearId (adist : ℕ → ℕ → ℚ) (r0 : LocationResultS) (rtail : List LocationResultS)
    (m : DomainLabelMatchS) : Option ℕ :=
  if feasibleAll adist (r0 :: rtail) m then
    some (minFirstBy (fun r => adist r.location_id m.location_id) r0 rtail).location_id
  else none

/-- `sort_matches(matches, results, locations)`. -/
def sort_matches (adist : ℕ → ℕ → ℚ) (ms : List DomainLabelMatchS)
    (results : List LocationResultS) : List DomainLabelMatchS :=
  match sortedResults results with
  | [] => ms
  | r0 :: rtail =>
    (r0 :: rtail).foldl
      (fun acc r => acc ++ ms.filter fun m => nearId adist r0 rtail m = some r.location_id)
      []

/-- The index (position in the RTT-ascending anchor list) of the nearest
anchor occurrence of a feasible match. -/
def nearIdx (adist : ℕ → ℕ → ℚ) (r0 : LocationResultS) (rtail : List LocationResultS)
    (m : DomainLabelMatchS) : Option ℕ :=
  if feasibleAll adist (r0 :: rtail) m then
    some (minFirstBy (fun p => adist p.2.location_id m.location_id)
      (0, r0) (rtail.enumFrom 1)).1
  else none

/-- The ranking described by the specification's words: the surviving
candidates (feasible against every responding anchor) grouped by their
nearest anchor — the anchor *occurrence*, identified by its position in the
RTT-ascending list — with the groups emitted in that ascending order,
preserving the input order inside each group. -/
def specRanking (adist : ℕ → ℕ → ℚ) (ms : List DomainLabelMatchS)
    (results : List LocationResultS) : List DomainLabelMatchS :=
  match sortedResults results with
  | [] => ms
  | r0 :: rtail =>
    ((r0 :: rtail).enum).foldl
      (fun acc ir => acc ++ ms.filter fun m => nearIdx adist r0 rtail m = some ir.1)
      []

/-!
## The verification orchestrator (check_domain_locations.py lines 436-571)

`check_domain_location_ripe` is embedded as a fuel-indexed interpreter over
oracle inputs:

* the pre-computed anchor RTTs (`rtts[ip]`, carrying the blacklist flag and the
  Munich/Singapore/Dallas RTTs) or, failing that, the `test_netsec_server`
  anchor list;
* per candidate visit, the flattened stored-measurement results fed through
  `check_measurements_for_nodes` and the outcome of
  `create_and_check_measurement` (node chosen plus the RTT extracted from the
  first result by `get_rtt_from_result`);
* an `exn` event modelling a Python exception raised by one of the external
  calls during a candidate visit.

The body runs inside `try: ... finally: sema.release()` — there is no
`except` clause, so an exception releases the semaphore but propagates out of
the thread without any outcome being recorded.  Fuel bounds the number of
while-loop iterations; `fuelOut` marks a run that did not finish within the
fuel (the Python loop has no bound of its own).
-/

/-- The outcome-class strings (check_domain_locations.py lines 430-433). -/
def CORRECT_TYPE : String := "correct"

/-- The `not_responding` outcome-class string. -/
def NOT_RESPONDING_TYPE : String := "not_responding"

/-- The `no_location` outcome-class string. -/
def NO_LOCATION_TYPE : String := "no_location"

/-- The `blacklisted` outcome-class string. -/
def BLACKLISTED_TYPE : String := "blacklisted"

/-- `MAX_RTT = 9` (check_domain_locations.py line 27). -/
def MAX_RTT : ℚ := 9

/-- A `Location` as consumed by the orchestrator: its id and the ids of its
near probes (`location.nodes`); coordinates live in the distance oracles. -/
structure LocationS where
  id : ℕ
  nodes : List ℕ
deriving DecidableEq, Repr

/-- The static environment of a verification run: the location table and the
distance oracles (`adist` for anchor-to-candidate distances inside
`sort_matches`, `ndist` for probe-to-candidate distances), plus the oldest
allowed stored-measurement timestamp. -/
structure EnvS where
  locations : ℕ → LocationS
  adist : ℕ → ℕ → ℚ
  ndist : ℕ → ℕ → ℚ
  oldest : ℤ

/-- One stored measurement result as consumed by
`check_measurements_for_nodes`: probe id, timestamp, and the value
`get_rtt_from_result` extracts from it (`none` when no RTT can be read). -/
structure MeasResultS where
  prb_id : ℕ
  timestamp : ℤ
  rtt : Option ℚ
deriving DecidableEq, Repr

/-- One step of the result loop in `check_measurements_for_nodes`
(check_domain_locations.py lines 966-982).  State: the current best
`check_n`, the matching `node_n`, and the synthetic `LocationResult`s appended
to the anchor list. -/
def cmfnStep (loc : LocationS) (oldest : ℤ)
    (st : Option ℚ × Option ℕ × List LocationResultS) (r : MeasResultS) :
    Option ℚ × Option ℕ × List LocationResultS :=
  if r.prb_id ∉ loc.nodes ∨ r.timestamp < oldest then st
  else
    match r.rtt with
    | none => st
    | some v =>
      match st with
      | (check_n, node_n, app) =>
        if v = -1 ∧ check_n = none then (some (-1), node_n, app)
        else
          match check_n with
          | none => (some v, some r.prb_id, app ++ [⟨loc.id, some v⟩])
          | some c =>
            if v < c ∨ c = -1 then (some v, some r.prb_id, app ++ [⟨loc.id, some v⟩])
            else st

/-- `check_measurements_for_nodes(measurements, location, results, ...)`
(check_domain_locations.py lines 950-987) over the flattened stored results;
an empty list covers the `measurements is None or len(...) == 0` guard.
Returns `(check_n, node_n)` plus the synthetic anchors appended to
`results`. -/
def check_measurements_for_nodes (loc : LocationS) (oldest : ℤ)
    (stored : List MeasResultS) : Option ℚ × Option ℕ × List LocationResultS :=
  stored.foldl (cmfnStep loc oldest) (none, none, [])

/-- Outcome of `create_and_check_measurement` as seen by the per-candidate
visit: no measurement could be made (`noMeas`, the `(None, None)` returns), or
a measurement from probe `nd` whose first result yields `rtt` under
`get_rtt_from_result` (`none` when the result has no readable RTT). -/
inductive FreshEv
  | noMeas
  | meas (nd : ℕ) (rtt : Option ℚ)
deriving DecidableEq, Repr

/-- The oracle data consumed by one candidate visit: the flattened stored
measurement results and the fresh-measurement outcome. -/
structure VisitEv where
  stored : List MeasResultS
  fresh : FreshEv
deriving DecidableEq, Repr

/-- One oracle event of the verification loop: a candidate visit's external
data, or a Python exception raised during the visit. -/
inductive Ev
  | visit (ve : VisitEv)
  | exn
deriving DecidableEq, Repr

/-- Result of processing the head candidate of the while loop
(check_domain_locations.py lines 492-563): the candidate is removed and the
loop continues with the updated anchor list, or the domain is confirmed at a
probe, or the whole domain becomes unresponsive. -/
inductive StepOut
  | removed (anchors : List LocationResultS)
  | confirmedOut (nd : ℕ)
  | unresponsive
deriving DecidableEq, Repr

/-- Processing of one candidate (the body of the while loop after the
`len(near_nodes) == 0` guard): run `check_measurements_for_nodes`, then either
reuse the stored RTT or — when it is `None` or the `-1` sentinel — create a
fresh measurement, applying the acceptance rule
`rtt < MAX_RTT + node_location_dist / 100`.  The branch reusing a valid
stored RTT always has `node_n` set (`cmfn_valid_node` below); the
unreachable `none` fallback removes the candidate. -/
def visitCandidate (env : EnvS) (anchors : List LocationResultS)
    (m : DomainLabelMatchS) (ev : VisitEv) : StepOut :=
  let loc := env.locations m.location_id
  match check_measurements_for_nodes loc env.oldest ev.stored with
  | (chk_m, node_n, app) =>
    let anchors := anchors ++ app
    if chk_m = none ∨ chk_m = some (-1) then
      match ev.fresh with
      | .noMeas => .removed anchors
      | .meas _ none => .removed anchors
      | .meas nd (some v) =>
        if v = -1 then .unresponsive
        else if v < MAX_RTT + env.ndist nd loc.id / 100 then .confirmedOut nd
        else .removed (anchors ++ [⟨loc.id, some v⟩])
    else
      match chk_m, node_n with
      | some c, some nd =>
        if c < MAX_RTT + env.ndist nd loc.id / 100 then .confirmedOut nd
        else .removed (anchors ++ [⟨loc.id, some c⟩])
      | _, _ => .removed anchors

/-- Result of the while loop over one label's matches. -/
inductive WhileRes
  | correctW
  | notRespW
  | raisedW
  | fuelOutW
  | exhausted (anchors : List LocationResultS) (oracle : List Ev)
deriving DecidableEq, Repr

/-- The while loop over one label's matches (check_domain_locations.py lines
491-563): re-rank the remaining matches, take the head, skip it when its
location has no near probes, otherwise consume one oracle event and dispatch
on the candidate's outcome.  An exhausted oracle behaves as a visit with no
stored results and no creatable measurement. -/
def runMatches (env : EnvS) : ℕ → List LocationResultS → List DomainLabelMatchS →
    List Ev → WhileRes
  | 0, _, _, _ => .fuelOutW
  | fuel + 1, anchors, ms, oracle =>
    match sort_matches env.adist ms anchors with
    | [] => .exhausted anchors oracle
    | m :: rest =>
      if (env.locations m.location_id).nodes = [] then
        runMatches env fuel anchors rest oracle
      else
        match oracle with
        | .exn :: _ => .raisedW
        | oracle =>
          let ev : VisitEv :=
            match oracle with
            | .visit e :: _ => e
            | _ => ⟨[], .noMeas⟩
          let oracle' : List Ev := oracle.tail
          match visitCandidate env anchors m ev with
          | .removed anchors' => runMatches env fuel anchors' rest oracle'
          | .confirmedOut _ => .correctW
          | .unresponsive => .notRespW

/-- Final result of one invocation of the verification task body. -/
inductive RunOut
  | done (t : String)
  | raised
  | fuelOut
deriving DecidableEq, Repr

/-- The `for i, label in enumerate(domain.domain_labels)` loop over the labels
*after* the skipped top-level label (check_domain_locations.py lines 472-569):
a confirmed candidate classifies the domain `correct` and breaks out; an
unresponsive result classifies it `not_responding`; an exhausted label hands
its updated anchors and oracle to the next one; exhausting all labels without
a confirmation yields `no_location`. -/
def runLabels (env : EnvS) (fuel : ℕ) :
    List LocationResultS → List (List DomainLabelMatchS) → List Ev → RunOut
  | _, [], _ => .done NO_LOCATION_TYPE
  | anchors, ms :: rest, oracle =>
    match runMatches env fuel anchors ms oracle with
    | .correctW => .done CORRECT_TYPE
    | .notRespW => .done NOT_RESPONDING_TYPE
    | .raisedW => .raised
    | .fuelOutW => .fuelOut
    | .exhausted anchors' oracle' => runLabels env fuel anchors' rest oracle'

/-- The `rtts[domain['ip']]` record: its blacklist flag and the three anchor
RTTs (Munich, Singapore, Dallas). -/
structure RttInfo where
  blacklisted : Bool
  rttM : Option ℚ
  rttS : Option ℚ
  rttD : Option ℚ
deriving DecidableEq, Repr

/-- The id standing for the `'munich'` anchor key. -/
def MUNICH_ID : ℕ := 9001

/-- The id standing for the `'singapore'` anchor key. -/
def SINGAPORE_ID : ℕ := 9002

/-- The id standing for the `'dallas'` anchor key. -/
def DALLAS_ID : ℕ := 9003

/-- The whole task `check_domain_location_ripe` (check_domain_locations.py
lines 436-571).  Inputs: the optional `rtts` record for the domain's ip, the
optional `test_netsec_server` anchor list, the per-label candidate matches
(index 0 = top-level label), and the oracle of visit events.  Output: the
body's terminal result plus whether the `finally: sema.release()` ran —
`true` whenever the body finished, normally or by exception; `fuelOut`
models a body still looping, whose `finally` has not run yet. -/
def check_domain_location_ripe (env : EnvS) (fuel : ℕ) (rttEntry : Option RttInfo)
    (netsec : Option (List LocationResultS))
    (labelMatches : List (List DomainLabelMatchS)) (oracle : List Ev) :
    RunOut × Bool :=
  let afterAnchors : List LocationResultS → RunOut := fun rs =>
    if rs.filter (fun r => r.rtt.isSome) = [] then .done NOT_RESPONDING_TYPE
    else
      match labelMatches with
      | [] => .done NO_LOCATION_TYPE
      | _ :: tail => runLabels env fuel rs tail oracle
  let body : RunOut :=
    match rttEntry with
    | some ri =>
      if ri.blacklisted then .done BLACKLISTED_TYPE
      else
        afterAnchors [⟨MUNICH_ID, ri.rttM⟩, ⟨SINGAPORE_ID, ri.rttS⟩,
          ⟨DALLAS_ID, ri.rttD⟩]
    | none =>
      match netsec with
      | none => .done NOT_RESPONDING_TYPE
      | some rs => afterAnchors rs
  (body, match body with
         | .fuelOut => false
         | _ => true)

/-!
## `create_and_check_measurement` (check_domain_locations.py lines 700-770)

The probe blacklist `NON_WORKING_PROBES` is threaded as explicit state (the
Python global is mutated under `NON_WORKING_PROBES_LOCK`; the embedding is the
sequential, invocation-atomic semantics).  Oracle inputs: the random indices
used by `new_near_node`, the measurement ids returned by `new_measurement`
(`none` when creation failed), the poll answers of `get_ripe_measurement`
(`none` when the call returned nothing, otherwise a status id), and an opaque
token for the final `AtlasResultsRequest` payload.  Every iteration of the
`while True` polling loop consumes one poll answer, so the poll list bounds
the run (`outOfPolls` models a run still polling when the oracle ends; the
Python loop itself is unbounded).  Besides the result, the embedding returns
the final blacklist and the log of probe selections, each paired with the
blacklist at the moment of that selection.
-/

/-- Result of one invocation: the `(m_results, near_node)` pair returned by
the Python function, or a run that outlived the poll oracle. -/
inductive CamRes
  | ret (mres : Option ℕ) (node : Option ℕ)
  | outOfPolls
deriving DecidableEq, Repr

/-- The polling loop of `create_and_check_measurement`: status 4 breaks out
and fetches the results; status 6 or 7 blacklists the current probe, picks a
fresh one and creates a new measurement; every other answer (pending statuses
0/1/2, an empty poll answer, or any unexpected status) just polls again. -/
def camLoop (fetch : ℕ) :
    List (Option ℕ) → List ℕ → ℕ → Option ℕ → List ℕ → List (Option ℕ) →
    List ℕ → List (ℕ × List ℕ) → CamRes × List ℕ × List (ℕ × List ℕ)
  | _, _, _, none, _, _, bl, sel => (.ret none none, bl, sel)
  | [], _, _, some _, _, _, bl, sel => (.outOfPolls, bl, sel)
  | p :: polls, nearNodes, nearNode, some mid, rands, creates, bl, sel =>
    if p = some 4 then (.ret (some fetch) (some nearNode), bl, sel)
    else if p = some 6 ∨ p = some 7 then
      let bl' := bl ++ [nearNode]
      let nn' := nearNodes.erase nearNode
      match nn' with
      | [] => (.ret none none, bl', sel)
      | _ :: _ =>
        let node' := nn'.getD (rands.headD 0 % nn'.length) 0
        camLoop fetch polls nn' node' (creates.headD none) rands.tail
          creates.tail bl' (sel ++ [(node', bl')])
    else camLoop fetch polls nearNodes nearNode (some mid) rands creates bl sel

/-- `create_and_check_measurement(ip_addr, location, ...)`: filter the
location's available probes against the blacklist, pick a random one, create a
measurement and run the polling loop. -/
def create_and_check_measurement (avail : List ℕ) (bl : List ℕ) (rands : List ℕ)
    (creates : List (Option ℕ)) (polls : List (Option ℕ)) (fetch : ℕ) :
    CamRes × List ℕ × List (ℕ × List ℕ) :=
  let nearNodes := avail.filter fun n => n ∉ bl
  match nearNodes with
  | [] => (.ret none none, bl, [])
  | _ :: _ =>
    let node := nearNodes.getD (rands.headD 0 % nearNodes.length) 0
    camLoop fetch polls nearNodes node (creates.headD none) rands.tail
      creates.tail bl [(node, bl)]

/-!
## Concrete fixtures used by witnesses and counterexamples
-/

/-- A candidate match used in concrete runs. -/
def mFix : DomainLabelMatchS := ⟨1, .iata⟩

/-- An anchor result with RTT 1 ms at location id 7. -/
def aFix1 : LocationResultS := ⟨7, some 1⟩

/-- A second anchor result sharing location id 7 (RTT 2 ms), as produced when
synthetic anchors for the same location are appended twice. -/
def aFix2 : LocationResultS := ⟨7, some 2⟩

/-- The zero distance oracle. -/
def dZero : ℕ → ℕ → ℚ := fun _ _ => 0

/-- A small environment: every location has the single near probe 55, all
distances zero. -/
def envFix : EnvS := ⟨fun i => ⟨i, [55]⟩, fun _ _ => 0, fun _ _ => 0, 0⟩

/-- An environment whose probe-to-candidate distance is 200 km everywhere
(for the spec's acceptance-rule example: threshold 9 + 200/100 = 11). -/
def envFix200 : EnvS := ⟨fun i => ⟨i, [55]⟩, fun _ _ => 0, fun _ _ => 200, 0⟩

/-- One stored measurement result carrying the unreachable sentinel `-1`
from probe 55 at timestamp 10. -/
def storedNegFix : List MeasResultS := [⟨55, 10, some (-1)⟩]

/-- Oracle for the sentinel counterexample: the stored measurement yields
`-1`, the fresh measurement from probe 77 yields 1 ms. -/
def oracleSentinelFix : List Ev := [.visit ⟨storedNegFix, .meas 77 (some 1)⟩]

/-- A trie holding location 5 under the IATA code `lax`. -/
def trieFix : String → List (ℕ × ℕ) := fun s => if s = "lax" then [(5, 0)] else []

/-- The host.example.com domain with one match in the `host` label (location
1) and one in the `example` label (location 2). -/
def domainHostFix : DomainS :=
  withMatches (mkDomain "host.example.com") fun l =>
    if l = "host" then [⟨1, .iata⟩]
    else if l = "example" then [⟨2, .geonames⟩]
    else []

/-!
## Helper lemmas
-/

/-- `amInner` threads the seen set and appends the deduplicated matches. -/
lemma amInner_eq (ms : List DomainLabelMatchS) (seen : List ℕ)
    (acc : List DomainLabelMatchS) :
    amInner ms seen acc = (seenUpd seen ms, acc ++ dedupKeepFirst seen ms) := by
  induction ms generalizing seen acc with
  | nil => simp [amInner, seenUpd, dedupKeepFirst]
  | cons m rest ih =>
    by_cases h : m.location_id ∈ seen <;>
      simp [amInner, seenUpd, dedupKeepFirst, h, ih]

/-- Deduplication distributes over append, updating the seen set in
between. -/
lemma dedupKeepFirst_append (xs ys : List DomainLabelMatchS) (seen : List ℕ) :
    dedupKeepFirst seen (xs ++ ys) =
      dedupKeepFirst seen xs ++ dedupKeepFirst (seenUpd seen xs) ys := by
  induction xs generalizing seen with
  | nil => simp [dedupKeepFirst, seenUpd]
  | cons x xs ih =>
    by_cases h : x.location_id ∈ seen <;>
      simp [dedupKeepFirst, seenUpd, h, ih]

/-- `amOuter` computes the deduplication of the concatenated label
matches. -/
lemma amOuter_eq (ls : List DomainLabelS) (seen : List ℕ)
    (acc : List DomainLabelMatchS) :
    amOuter ls seen acc =
      acc ++ dedupKeepFirst seen ((ls.map (fun l => l.label_matches)).flatten) := by
  induction ls generalizing seen acc with
  | nil => simp [amOuter, dedupKeepFirst]
  | cons l ls ih =>
    simp [amOuter, amInner_eq, ih, dedupKeepFirst_append]

/-- Characterization of the `[a-zA-Z]{k}` matcher: exactly `k` ASCII
letters. -/
lemma acceptsChars_repExact (k : ℕ) (cs : List Char) :
    ClassPat.acceptsChars (.repExact k) cs = true ↔
      cs.length = k ∧ ∀ c ∈ cs, isAsciiLetter c = true := by
  induction k generalizing cs with
  | zero => cases cs <;> simp [ClassPat.acceptsChars]
  | succ k ih =>
    cases cs with
    | nil => simp [ClassPat.acceptsChars]
    | cons c cs =>
      simp only [ClassPat.acceptsChars, Bool.and_eq_true, ih, List.length_cons,
        Nat.succ_inj', List.mem_cons]
      constructor
      · rintro ⟨hc, hl, hall⟩
        exact ⟨hl, fun d hd => hd.elim (fun e => e ▸ hc) (hall d)⟩
      · rintro ⟨hl, hall⟩
        exact ⟨hall c (Or.inl rfl), hl, fun d hd => hall d (Or.inr hd)⟩

/-- Characterization of the `[a-zA-Z]+` matcher: one or more ASCII
letters. -/
lemma acceptsChars_repPlus (cs : List Char) :
    ClassPat.acceptsChars .repPlus cs = true ↔
      cs ≠ [] ∧ ∀ c ∈ cs, isAsciiLetter c = true := by
  induction cs with
  | nil => simp [ClassPat.acceptsChars]
  | cons c cs ih =>
    cases cs with
    | nil => simp [ClassPat.acceptsChars]
    | cons c' cs' =>
      simp only [ClassPat.acceptsChars, Bool.and_eq_true, ih, List.mem_cons]
      constructor
      · rintro ⟨hc, _, hall⟩
        refine ⟨by simp, fun d hd => ?_⟩
        rcases hd with h | h | h
        · exact h ▸ hc
        · exact hall d (Or.inl h)
        · exact hall d (Or.inr h)
      · rintro ⟨_, hall⟩
        exact ⟨hall c (Or.inl rfl), by simp,
          fun d hd => hd.elim (fun h => hall d (Or.inr (Or.inl h)))
            (fun h => hall d (Or.inr (Or.inr h)))⟩

/-!
## Claim theorems
-/

/-- C4: `Domain.all_matches` returns the label matches ordered from the
most-specific (host) label to the least-specific label — the labels are
stored top-level first, so the scan runs over `domain_labels` reversed — with
duplicate location ids collapsed to the first (most-specific) occurrence; in
particular, for `host.example.com` with a match only in the `host` label and
a match only in the `example` label, the `host` match comes first. -/
theorem c4_all_matches_dedup_most_specific_first :
    (∀ d : DomainS,
      d.all_matches =
        dedupKeepFirst [] ((d.domain_labels.reverse.map (fun l => l.label_matches)).flatten)) ∧
    domainHostFix.all_matches = [⟨1, .iata⟩, ⟨2, .geonames⟩] := by
  constructor
  · intro d
    simpa using amOuter_eq d.domain_labels.reverse [] []
  · decide

/-- C10: when no anchor result carries an RTT, `sort_matches` returns its
input match list unchanged (the filtered anchor list is empty and the
function returns `matches` before any ranking). -/
theorem c10_sort_matches_identity (adist : ℕ → ℕ → ℚ)
    (ms : List DomainLabelMatchS) (results : List LocationResultS)
    (h : ∀ r ∈ results, r.rtt = none) :
    sort_matches adist ms results = ms := by
  have hf : results.filter (fun r => r.rtt.isSome) = [] := by
    rw [List.filter_eq_nil_iff]
    intro r hr
    simp [h r hr]
  have hs : sortedResults results = [] := by
    simp [sortedResults, hf, stableSort]
  simp [sort_matches, hs]

/-- C10 witness: a concrete anchor list with only `None` RTTs leaves a
one-candidate list unchanged. -/
theorem c10_witness : sort_matches dZero [mFix] [⟨7, none⟩, ⟨8, none⟩] = [mFix] :=
  c10_sort_matches_identity dZero [mFix] [⟨7, none⟩, ⟨8, none⟩] (by decide)

/-- C9 counterexample: the rule template `{}-rtr` with the generic place-name
category compiles to `(?P<type>[a-zA-Z]+)-rtr`, which is not anchored — the
compiled pattern neither starts with `^` nor ends with `$` (no anchor is ever
added by the substitution), contradicting "producing an anchored compiled
regex per rule". -/
theorem c9_counterexample :
    compileRuleStr "\x7b\x7d-rtr" .geonames = some "(?P<type>[a-zA-Z]+)-rtr" ∧
    ¬ specAnchoredPattern "(?P<type>[a-zA-Z]+)-rtr" ∧
    ∀ c ∈ ("(?P<type>[a-zA-Z]+)-rtr" : String).data, c ≠ '^' ∧ c ≠ '$' := by
  refine ⟨by decide, by decide, by decide⟩

/-- C9 (amended): compiling a rule substitutes its placeholder `{}` with the
category's named-group character-class pattern — `(?P<type>[a-zA-Z]{3})` for
IATA, `{4}` for ICAO, `{6}` for CLLI, `{5}` for LOCODE and
`(?P<type>[a-zA-Z]+)` for generic place names — and the class pattern matches
exactly 3/4/6/5 letters respectively (one or more for place names); the
compiled regex is not anchored by the substitution (see the
counterexample). -/
theorem c9_rule_compilation (template : String) (cs : List Char) :
    (compileRuleStr template .iata =
        some (pyReplace template "\x7b\x7d" "(?P<type>[a-zA-Z]\x7b3\x7d)") ∧
      LocationCodeType.iata.classPat = some (.repExact 3) ∧
      (ClassPat.acceptsChars (.repExact 3) cs = true ↔
        cs.length = 3 ∧ ∀ c ∈ cs, isAsciiLetter c = true)) ∧
    (compileRuleStr template .icao =
        some (pyReplace template "\x7b\x7d" "(?P<type>[a-zA-Z]\x7b4\x7d)") ∧
      LocationCodeType.icao.classPat = some (.repExact 4) ∧
      (ClassPat.acceptsChars (.repExact 4) cs = true ↔
        cs.length = 4 ∧ ∀ c ∈ cs, isAsciiLetter c = true)) ∧
    (compileRuleStr template .clli =
        some (pyReplace template "\x7b\x7d" "(?P<type>[a-zA-Z]\x7b6\x7d)") ∧
      LocationCodeType.clli.classPat = some (.repExact 6) ∧
      (ClassPat.acceptsChars (.repExact 6) cs = true ↔
        cs.length = 6 ∧ ∀ c ∈ cs, isAsciiLetter c = true)) ∧
    (compileRuleStr template .locode =
        some (pyReplace template "\x7b\x7d" "(?P<type>[a-zA-Z]\x7b5\x7d)") ∧
      LocationCodeType.locode.classPat = some (.repExact 5) ∧
      (ClassPat.acceptsChars (.repExact 5) cs = true ↔
        cs.length = 5 ∧ ∀ c ∈ cs, isAsciiLetter c = true)) ∧
    (compileRuleStr template .geonames =
        some (pyReplace template "\x7b\x7d" "(?P<type>[a-zA-Z]+)") ∧
      LocationCodeType.geonames.classPat = some .repPlus ∧
      (ClassPat.acceptsChars .repPlus cs = true ↔
        cs ≠ [] ∧ ∀ c ∈ cs, isAsciiLetter c = true)) := by
  refine ⟨⟨rfl, rfl, acceptsChars_repExact 3 cs⟩,
    ⟨rfl, rfl, acceptsChars_repExact 4 cs⟩,
    ⟨rfl, rfl, acceptsChars_repExact 6 cs⟩,
    ⟨rfl, rfl, acceptsChars_repExact 5 cs⟩,
    ⟨rfl, rfl, acceptsChars_repPlus cs⟩⟩

/-- C7: construction of a rule set from a DRoP YAML document is *not* robust
against rules with a bad or missing required-mapping flag.  At the concrete
document whose single rule has `mapping_required = 0`, the code reaches
`logging.warning('mapping required != 1 for ' + rule)` and raises `TypeError`
(a `str` cannot be concatenated with a `dict`); with the flag missing it
raises `KeyError` at `rule['mapping_required']`.  Only the third malformation
— an unrecognized category tag — is logged and skipped as the spec says. -/
theorem c7_malformed_rule_raises :
    create_rule_from_yaml_dict ⟨"DRoP-cogent", "drop", [⟨some 0, "<<iata>>"⟩]⟩ =
      .error .typeError ∧
    create_rule_from_yaml_dict ⟨"DRoP-cogent", "drop", [⟨none, "<<iata>>"⟩]⟩ =
      .error .keyError ∧
    create_rule_from_yaml_dict ⟨"DRoP-cogent", "drop", [⟨some 1, "<<wat>>x"⟩]⟩ =
      .ok ⟨"cogent", "drop", []⟩ ∧
    create_rule_from_yaml_dict
        ⟨"DRoP-cogent", "drop", [⟨some 1, "pre<<iata>>post"⟩]⟩ =
      .ok ⟨"cogent", "drop", [("pre\x7b\x7dpost", .iata)]⟩ := by
  refine ⟨rfl, rfl, rfl, rfl⟩

/-- C5 counterexample: candidate matching applies the rule regexes to the
*whole* domain name, top-level label included.  For the domain `x1.lax`
(labels, top-level first: `lax`, `x1`) and a bare IATA rule, the code `lax`
occurs only in the top-level label — the rule matches nothing in the
non-top-level label `x1` — yet the matching stage produces a `LocationMatch`
for it, contradicting "no rule regex is applied to the top-level label, so a
location code occurring only in the top-level label yields no
LocationMatch". -/
theorem c5_counterexample :
    searchInFileDomain [⟨[.hole], .iata⟩] trieFix (mkDomain "x1.lax") =
      [⟨5, .iata, "lax"⟩] ∧
    (mkDomain "x1.lax").domain_labels.map (fun l => l.label) = ["lax", "x1"] ∧
    regexSearch [.hole] (.repExact 3) "x1" = none := by
  refine ⟨by decide, by decide, by decide⟩

/-- C5 (amended): during verification the top-level label is indeed never
consulted — the per-domain outcome of `check_domain_location_ripe` does not
depend on the matches attached to label index 0 — but during candidate
matching `search_in_file` searches every rule regex in the full domain name,
top-level label included, so a code occurring only in the top-level label
does yield a match at the matching stage (concrete instance: the `x1.lax`
domain of the counterexample). -/
theorem c5_top_level_label (env : EnvS) (fuel : ℕ) (rttEntry : Option RttInfo)
    (netsec : Option (List LocationResultS)) (l0 l0' : List DomainLabelMatchS)
    (rest : List (List DomainLabelMatchS)) (oracle : List Ev) :
    check_domain_location_ripe env fuel rttEntry netsec (l0 :: rest) oracle =
      check_domain_location_ripe env fuel rttEntry netsec (l0' :: rest) oracle ∧
    searchInFileDomain [⟨[.hole], .iata⟩] trieFix (mkDomain "x1.lax") ≠ [] := by
  exact ⟨rfl, by decide⟩

/-- Every `.done` outcome of the label loop is one of `correct`,
`not_responding`, `no_location`. -/
lemma runLabels_done_cases (env : EnvS) (fuel : ℕ)
    (lss : List (List DomainLabelMatchS)) :
    ∀ (anchors : List LocationResultS) (oracle : List Ev) (t : String),
      runLabels env fuel anchors lss oracle = .done t →
      t = CORRECT_TYPE ∨ t = NOT_RESPONDING_TYPE ∨ t = NO_LOCATION_TYPE := by
  induction lss with
  | nil =>
    intro anchors oracle t h
    simp only [runLabels, RunOut.done.injEq] at h
    exact Or.inr (Or.inr h.symm)
  | cons ms rest ih =>
    intro anchors oracle t h
    simp only [runLabels] at h
    split at h
    · injection h with h
      exact Or.inl h.symm
    · injection h with h
      exact Or.inr (Or.inl h.symm)
    · exact absurd h (by simp)
    · exact absurd h (by simp)
    · exact ih _ _ _ h

/-- C2 (amended): the verification task releases its concurrency-semaphore
slot on every terminating path, exceptional ones included, and every
invocation whose body terminates without raising classifies the domain into
exactly one of the four terminal outcome classes (`correct`,
`not_responding`, `no_location`, `blacklisted`); but an exception inside the
task is *not* caught at the task boundary — the body runs under
`try/finally` with no `except`, so it propagates and the domain is assigned
no outcome class (see the counterexample). -/
theorem c2_task_outcomes (env : EnvS) (fuel : ℕ) (rttEntry : Option RttInfo)
    (netsec : Option (List LocationResultS))
    (labelMatches : List (List DomainLabelMatchS)) (oracle : List Ev) :
    ((check_domain_location_ripe env fuel rttEntry netsec labelMatches oracle).1 ≠
        .fuelOut →
      (check_domain_location_ripe env fuel rttEntry netsec labelMatches oracle).2 =
        true) ∧
    (∀ t, (check_domain_location_ripe env fuel rttEntry netsec labelMatches
        oracle).1 = .done t →
      t = CORRECT_TYPE ∨ t = NOT_RESPONDING_TYPE ∨ t = NO_LOCATION_TYPE ∨
        t = BLACKLISTED_TYPE) ∧
    ((check_domain_location_ripe env fuel rttEntry netsec labelMatches oracle).1 ≠
        .fuelOut →
      (check_domain_location_ripe env fuel rttEntry netsec labelMatches oracle).1 ≠
        .raised →
      ∃ t, (check_domain_location_ripe env fuel rttEntry netsec labelMatches
        oracle).1 = .done t) := by
  have hsema : (check_domain_location_ripe env fuel rttEntry netsec labelMatches
      oracle).2 =
      (match (check_domain_location_ripe env fuel rttEntry netsec labelMatches
        oracle).1 with
       | RunOut.fuelOut => false
       | _ => true) := rfl
  refine ⟨?_, ?_, ?_⟩
  · intro h
    rw [hsema]
    rcases hb : (check_domain_location_ripe env fuel rttEntry netsec labelMatches
      oracle).1 with t | _ | _ <;> simp_all
  · intro t h
    have hbody : ∀ (rs : List LocationResultS),
        (match labelMatches with
          | [] => RunOut.done NO_LOCATION_TYPE
          | _ :: tail => runLabels env fuel rs tail oracle) = .done t →
        t = CORRECT_TYPE ∨ t = NOT_RESPONDING_TYPE ∨ t = NO_LOCATION_TYPE := by
      intro rs hm
      match labelMatches, hm with
      | [], hm =>
        simp only [RunOut.done.injEq] at hm
        exact Or.inr (Or.inr hm.symm)
      | _ :: tail, hm => exact runLabels_done_cases env fuel tail rs oracle t hm
    simp only [check_domain_location_ripe] at h
    rcases rttEntry with _ | ri
    · rcases netsec with _ | rs
      · simp only [RunOut.done.injEq] at h
        exact Or.inr (Or.inl h.symm)
      · simp only at h
        split at h
        · simp only [RunOut.done.injEq] at h
          exact Or.inr (Or.inl h.symm)
        · rcases hbody rs h with h' | h' | h' <;> simp [h']
    · simp only at h
      split at h
      · simp only [RunOut.done.injEq] at h
        exact Or.inr (Or.inr (Or.inr h.symm))
      · split at h
        · simp only [RunOut.done.injEq] at h
          exact Or.inr (Or.inl h.symm)
        · rcases hbody _ h with h' | h' | h' <;> simp [h']
  · intro h1 h2
    rcases hb : (check_domain_location_ripe env fuel rttEntry netsec labelMatches
      oracle).1 with t | _ | _
    · exact ⟨t, rfl⟩
    · exact absurd hb h2
    · exact absurd hb h1

/-- C2 witness: a pre-blacklisted domain releases its slot and lands in the
`blacklisted` class, one of the four terminal classes. -/
theorem c2_witness :
    (check_domain_location_ripe envFix 1 (some ⟨true, none, none, none⟩) none [] []).2 =
      true ∧
    (BLACKLISTED_TYPE = CORRECT_TYPE ∨ BLACKLISTED_TYPE = NOT_RESPONDING_TYPE ∨
      BLACKLISTED_TYPE = NO_LOCATION_TYPE ∨ BLACKLISTED_TYPE = BLACKLISTED_TYPE) :=
  ⟨(c2_task_outcomes envFix 1 (some ⟨true, none, none, none⟩) none [] []).1
      (by decide),
    (c2_task_outcomes envFix 1 (some ⟨true, none, none, none⟩) none [] []).2.1
      BLACKLISTED_TYPE (by decide)⟩

/-- C2 counterexample: an exception raised during the first candidate visit
propagates out of the task body — the run ends `raised`, no outcome class is
recorded for the domain (it is dropped), even though the semaphore slot is
still released by the `finally`.  This contradicts "exceptions raised inside
the task are caught at the task boundary so the domain is never silently
dropped". -/
theorem c2_counterexample :
    check_domain_location_ripe envFix 5 none (some [⟨9, some 1⟩])
      [[], [⟨1, .iata⟩]] [.exn] = (.raised, true) ∧
    ∀ t : String, (RunOut.raised : RunOut) ≠ .done t := by
  exact ⟨by decide, by simp⟩

/-- C1: a candidate verified against a responding probe (an obtained RTT `r`
different from the `-1` sentinel) at distance `d` from the candidate's
location is confirmed exactly when `r < MAX_RTT + d / 100` with
`MAX_RTT = 9` — stated for both the fresh-measurement branch and the
reused-stored-measurement branch — and a confirmed candidate classifies the
domain into the `correct` outcome; in particular `8 < 9 + 200 / 100`. -/
theorem c1_acceptance_rule :
    (∀ (env : EnvS) (anchors : List LocationResultS) (m : DomainLabelMatchS)
        (ev : VisitEv) (nd : ℕ) (r : ℚ),
      ((check_measurements_for_nodes (env.locations m.location_id) env.oldest
          ev.stored).1 = none ∨
        (check_measurements_for_nodes (env.locations m.location_id) env.oldest
          ev.stored).1 = some (-1)) →
      ev.fresh = .meas nd (some r) → r ≠ -1 →
      (visitCandidate env anchors m ev = .confirmedOut nd ↔
        r < MAX_RTT + env.ndist nd (env.locations m.location_id).id / 100)) ∧
    (∀ (env : EnvS) (anchors : List LocationResultS) (m : DomainLabelMatchS)
        (ev : VisitEv) (c : ℚ) (nd : ℕ),
      (check_measurements_for_nodes (env.locations m.location_id) env.oldest
        ev.stored).1 = some c →
      c ≠ -1 →
      (check_measurements_for_nodes (env.locations m.location_id) env.oldest
        ev.stored).2.1 = some nd →
      (visitCandidate env anchors m ev = .confirmedOut nd ↔
        c < MAX_RTT + env.ndist nd (env.locations m.location_id).id / 100)) ∧
    ((8 : ℚ) < MAX_RTT + 200 / 100) ∧
    (∀ (env : EnvS) (fuel : ℕ) (anchors : List LocationResultS)
        (ms rest : List DomainLabelMatchS) (m : DomainLabelMatchS)
        (lrest : List (List DomainLabelMatchS)) (oracle' : List Ev)
        (ev : VisitEv),
      sort_matches env.adist ms anchors = m :: rest →
      (env.locations m.location_id).nodes ≠ [] →
      (∃ nd, visitCandidate env anchors m ev = .confirmedOut nd) →
      runLabels env (fuel + 1) anchors (ms :: lrest) (.visit ev :: oracle') =
        .done CORRECT_TYPE) := by
  refine ⟨?_, ?_, by norm_num [MAX_RTT], ?_⟩
  · intro env anchors m ev nd r hchk hev hr
    rcases hmr : check_measurements_for_nodes (env.locations m.location_id)
      env.oldest ev.stored with ⟨chk, node, app⟩
    rw [hmr] at hchk
    simp only at hchk
    have hcond : chk = none ∨ chk = some (-1) := hchk
    simp only [visitCandidate, hmr, hev]
    rw [if_pos hcond]
    rw [if_neg hr]
    split_ifs with hlt <;> simp [hlt]
  · intro env anchors m ev c nd hchk hc hnode
    rcases hmr : check_measurements_for_nodes (env.locations m.location_id)
      env.oldest ev.stored with ⟨chk, node, app⟩
    rw [hmr] at hchk hnode
    simp only at hchk hnode
    subst hchk
    subst hnode
    have hcond : ¬ (some c = none ∨ some c = (some (-1) : Option ℚ)) := by
      simp [hc]
    simp only [visitCandidate, hmr]
    rw [if_neg hcond]
    split_ifs with hlt <;> simp [hlt]
  · intro env fuel anchors ms rest m lrest oracle' ev hsort hnodes hconf
    rcases hconf with ⟨nd, hstep⟩
    simp only [runLabels, runMatches, hsort, if_neg hnodes, hstep]

/-- C1 witness: with probe distance 200 km everywhere, a fresh measurement of
8 ms confirms the candidate (threshold 9 + 200/100 = 11). -/
theorem c1_witness :
    visitCandidate envFix200 [] ⟨1, .iata⟩ ⟨[], .meas 77 (some 8)⟩ =
      .confirmedOut 77 ∧ (8 : ℚ) < MAX_RTT + 200 / 100 :=
  ⟨(c1_acceptance_rule.1 envFix200 [] ⟨1, .iata⟩ ⟨[], .meas 77 (some 8)⟩ 77 8
      (Or.inl rfl) rfl (by norm_num)).mpr (by norm_num [envFix200, MAX_RTT]),
    c1_acceptance_rule.2.2.1⟩

/-- C6 counterexample: a *stored* measurement RTT equal to the `-1` sentinel
does not make the domain `not_responding`: `check_measurements_for_nodes`
returns `-1` for the candidate, the code treats it like a missing measurement
and creates a fresh one, and when that fresh measurement confirms, the domain
ends in the `correct` class — contradicting "whenever an obtained measurement
RTT equals the unreachable sentinel value -1, the domain immediately
transitions to the not_responding outcome". -/
theorem c6_counterexample :
    (check_measurements_for_nodes (envFix.locations 1) envFix.oldest
      storedNegFix).1 = some (-1) ∧
    check_domain_location_ripe envFix 5 none (some [⟨9, some 1⟩])
      [[], [⟨1, .iata⟩]] oracleSentinelFix = (.done CORRECT_TYPE, true) ∧
    CORRECT_TYPE ≠ NOT_RESPONDING_TYPE := by
  refine ⟨by decide, by decide, by decide⟩

/-- C6 (amended): only a *freshly created* measurement whose RTT equals the
`-1` sentinel transitions the domain to `not_responding` immediately,
bypassing every remaining candidate of the current label, every remaining
label and the rest of the oracle; a stored measurement RTT of `-1` is treated
like a missing measurement — the code proceeds to create a new measurement
(and when none can be created the candidate is merely skipped). -/
theorem c6_sentinel_unresponsive :
    (∀ (env : EnvS) (fuel : ℕ) (anchors : List LocationResultS)
        (ms rest : List DomainLabelMatchS) (m : DomainLabelMatchS)
        (lrest : List (List DomainLabelMatchS)) (oracle' : List Ev)
        (ev : VisitEv) (nd : ℕ),
      sort_matches env.adist ms anchors = m :: rest →
      (env.locations m.location_id).nodes ≠ [] →
      ((check_measurements_for_nodes (env.locations m.location_id) env.oldest
          ev.stored).1 = none ∨
        (check_measurements_for_nodes (env.locations m.location_id) env.oldest
          ev.stored).1 = some (-1)) →
      ev.fresh = .meas nd (some (-1)) →
      runMatches env (fuel + 1) anchors ms (.visit ev :: oracle') = .notRespW ∧
      runLabels env (fuel + 1) anchors (ms :: lrest) (.visit ev :: oracle') =
        .done NOT_RESPONDING_TYPE) ∧
    (∀ (env : EnvS) (anchors : List LocationResultS) (m : DomainLabelMatchS)
        (ev : VisitEv),
      (check_measurements_for_nodes (env.locations m.location_id) env.oldest
        ev.stored).1 = some (-1) →
      ev.fresh = .noMeas →
      ∃ a, visitCandidate env anchors m ev = .removed a) := by
  constructor
  · intro env fuel anchors ms rest m lrest oracle' ev nd hsort hnodes hchk hev
    have hstep : visitCandidate env anchors m ev = .unresponsive := by
      rcases hmr : check_measurements_for_nodes (env.locations m.location_id)
        env.oldest ev.stored with ⟨chk, node, app⟩
      rw [hmr] at hchk
      simp only at hchk
      simp only [visitCandidate, hmr, hev]
      rw [if_pos hchk]
      simp
    have hrm : runMatches env (fuel + 1) anchors ms (.visit ev :: oracle') =
        .notRespW := by
      simp only [runMatches, hsort, if_neg hnodes, hstep]
    exact ⟨hrm, by simp only [runLabels, hrm]⟩
  · intro env anchors m ev hchk hev
    rcases hmr : check_measurements_for_nodes (env.locations m.location_id)
      env.oldest ev.stored with ⟨chk, node, app⟩
    rw [hmr] at hchk
    simp only at hchk
    refine ⟨anchors ++ app, ?_⟩
    simp only [visitCandidate, hmr, hev]
    rw [if_pos (Or.inr hchk)]

/-- C6 witness: a fresh measurement returning the sentinel classifies the
domain `not_responding`, regardless of the (nonempty) remaining label list
and oracle. -/
theorem c6_witness :
    runLabels envFix 4 [⟨9, some 1⟩] [[⟨1, .iata⟩], [⟨2, .iata⟩]]
      [.visit ⟨[], .meas 77 (some (-1))⟩] = .done NOT_RESPONDING_TYPE :=
  (c6_sentinel_unresponsive.1 envFix 3 [⟨9, some 1⟩] [⟨1, .iata⟩] []
    ⟨1, .iata⟩ [[⟨2, .iata⟩]] [] ⟨[], .meas 77 (some (-1))⟩ 77 (by decide)
    (by decide) (Or.inl rfl) rfl).2

/-- An element picked by index-mod-length from a nonempty list is a member. -/
lemma getD_mod_mem (l : List ℕ) (k : ℕ) (h : l ≠ []) :
    l.getD (k % l.length) 0 ∈ l := by
  have hlen : 0 < l.length := List.length_pos.mpr h
  have hk : k % l.length < l.length := Nat.mod_lt _ hlen
  rw [List.getD_eq_getElem?_getD, List.getElem?_eq_getElem hk]
  exact List.getElem_mem hk

/-- The polling loop only appends to the blacklist. -/
lemma camLoop_blacklist_mono (fetch : ℕ) :
    ∀ (polls : List (Option ℕ)) (nearNodes : List ℕ) (nearNode : ℕ)
      (mid : Option ℕ) (rands : List ℕ) (creates : List (Option ℕ))
      (bl : List ℕ) (sel : List (ℕ × List ℕ)),
      ∃ suffix, (camLoop fetch polls nearNodes nearNode mid rands creates bl
        sel).2.1 = bl ++ suffix := by
  intro polls
  induction polls with
  | nil =>
    intro nearNodes nearNode mid rands creates bl sel
    cases mid with
    | none => exact ⟨[], by simp [camLoop]⟩
    | some mid => exact ⟨[], by simp [camLoop]⟩
  | cons p polls ih =>
    intro nearNodes nearNode mid rands creates bl sel
    cases mid with
    | none => exact ⟨[], by simp [camLoop]⟩
    | some mid =>
      simp only [camLoop]
      split_ifs with h4 h67
      · exact ⟨[], by simp⟩
      · cases hnn : nearNodes.erase nearNode with
        | nil => exact ⟨[nearNode], by simp⟩
        | cons a l =>
          obtain ⟨s, hs⟩ := ih (a :: l)
            ((a :: l).getD (rands.headD 0 % (a :: l).length) 0)
            (creates.headD none) rands.tail creates.tail (bl ++ [nearNode])
            (sel ++ [((a :: l).getD (rands.headD 0 % (a :: l).length) 0,
              bl ++ [nearNode])])
          exact ⟨[nearNode] ++ s, by simp only [hs, List.append_assoc]⟩
      · exact ih nearNodes nearNode (some mid) rands creates bl sel

/-- Any predicate holding on the local candidate probes and the logged
selections keeps holding on all selections the polling loop makes: every
later pick comes from (a sublist of) the local probe list. -/
lemma camLoop_sel_pred (fetch : ℕ) (P : ℕ → Prop) :
    ∀ (polls : List (Option ℕ)) (nearNodes : List ℕ) (nearNode : ℕ)
      (mid : Option ℕ) (rands : List ℕ) (creates : List (Option ℕ))
      (bl : List ℕ) (sel : List (ℕ × List ℕ)),
      (∀ n ∈ nearNodes, P n) → (∀ p ∈ sel, P p.1) →
      ∀ p ∈ (camLoop fetch polls nearNodes nearNode mid rands creates bl
        sel).2.2, P p.1 := by
  intro polls
  induction polls with
  | nil =>
    intro nearNodes nearNode mid rands creates bl sel hnn hsel
    cases mid with
    | none => simpa [camLoop] using hsel
    | some mid => simpa [camLoop] using hsel
  | cons p polls ih =>
    intro nearNodes nearNode mid rands creates bl sel hnn hsel
    cases mid with
    | none => simpa [camLoop] using hsel
    | some mid =>
      simp only [camLoop]
      split_ifs with h4 h67
      · simpa using hsel
      · cases hnn' : nearNodes.erase nearNode with
        | nil => simpa using hsel
        | cons a l =>
          refine ih (a :: l) _ _ _ _ _ _ ?_ ?_
          · intro n hn
            have hn' : n ∈ nearNodes.erase nearNode := by rw [hnn']; exact hn
            exact hnn n (List.mem_of_mem_erase hn')
          · intro q hq
            rcases List.mem_append.mp hq with h | h
            · exact hsel q h
            · have hmem : (a :: l).getD (rands.headD 0 % (a :: l).length) 0 ∈
                  nearNodes.erase nearNode := by
                rw [hnn']
                exact getD_mod_mem _ _ (by simp)
              have : q.1 = (a :: l).getD (rands.headD 0 % (a :: l).length) 0 := by
                simp at h
                simp [h]
              rw [this]
              exact hnn _ (List.mem_of_mem_erase hmem)
      · exact ih nearNodes nearNode (some mid) rands creates bl sel hnn hsel

/-- Under a duplicate-free local probe list, every selection the polling loop
logs avoids the blacklist as it stands at that selection's moment. -/
lemma camLoop_sel_fresh (fetch : ℕ) :
    ∀ (polls : List (Option ℕ)) (nearNodes : List ℕ) (nearNode : ℕ)
      (mid : Option ℕ) (rands : List ℕ) (creates : List (Option ℕ))
      (bl : List ℕ) (sel : List (ℕ × List ℕ)),
      nearNodes.Nodup → (∀ n ∈ nearNodes, n ∉ bl) → (∀ p ∈ sel, p.1 ∉ p.2) →
      ∀ p ∈ (camLoop fetch polls nearNodes nearNode mid rands creates bl
        sel).2.2, p.1 ∉ p.2 := by
  intro polls
  induction polls with
  | nil =>
    intro nearNodes nearNode mid rands creates bl sel hnd hnb hsel
    cases mid with
    | none => simpa [camLoop] using hsel
    | some mid => simpa [camLoop] using hsel
  | cons p polls ih =>
    intro nearNodes nearNode mid rands creates bl sel hnd hnb hsel
    cases mid with
    | none => simpa [camLoop] using hsel
    | some mid =>
      simp only [camLoop]
      split_ifs with h4 h67
      · simpa using hsel
      · cases hnn' : nearNodes.erase nearNode with
        | nil => simpa using hsel
        | cons a l =>
          have herase : ∀ n ∈ (a :: l), n ≠ nearNode ∧ n ∈ nearNodes := by
            intro n hn
            have hn' : n ∈ nearNodes.erase nearNode := by rw [hnn']; exact hn
            exact (List.Nodup.mem_erase_iff hnd).mp hn'

          refine ih (a :: l) _ _ _ _ _ _ ?_ ?_ ?_
          · rw [← hnn']
            exact hnd.erase nearNode
          · intro n hn
            rcases herase n hn with ⟨hne, hmem⟩
            simp only [List.mem_append, List.mem_singleton]
            rintro (h | h)
            · exact hnb n hmem h
            · exact hne h
          · intro q hq
            rcases List.mem_append.mp hq with h | h
            · exact hsel q h
            · have hmem : (a :: l).getD (rands.headD 0 % (a :: l).length) 0 ∈
                  (a :: l) := getD_mod_mem _ _ (by simp)
              rcases herase _ hmem with ⟨hne, hmem'⟩
              simp only [List.mem_singleton] at h
              rw [h]
              simp only [List.mem_append, List.mem_singleton]
              rintro (hc | hc)
              · exact hnb _ hmem' hc
              · exact hne hc
      · exact ih nearNodes nearNode (some mid) rands creates bl sel hnd hnb hsel

/-- C8 (amended): within one run, the probe blacklist only grows (the final
blacklist is the initial one plus appended failures — nothing is ever
removed), and no selection ever picks a probe that was blacklisted when the
invocation started — hence once probe P is blacklisted, no subsequent
invocation selects P again; moreover, when the location's available probe
list has no duplicate entries, no selection (retries after terminal
measurement failures included) picks a probe that is in the blacklist at the
moment of that selection.  (With a duplicated available-probe entry a retry
inside the same invocation can re-pick a just-blacklisted probe: the entry
filter runs only at invocation entry and `near_nodes.remove` drops a single
occurrence — see the counterexample.) -/
theorem c8_blacklist_monotone (avail bl rands : List ℕ)
    (creates polls : List (Option ℕ)) (fetch : ℕ) :
    (∃ suffix, (create_and_check_measurement avail bl rands creates polls
      fetch).2.1 = bl ++ suffix) ∧
    (∀ p ∈ (create_and_check_measurement avail bl rands creates polls
      fetch).2.2, p.1 ∉ bl) ∧
    (avail.Nodup →
      ∀ p ∈ (create_and_check_measurement avail bl rands creates polls
        fetch).2.2, p.1 ∉ p.2) := by
  have hfil : ∀ n ∈ avail.filter (fun n => decide (n ∉ bl)), n ∉ bl := by
    intro n hn
    have := List.mem_filter.mp hn
    simpa using this.2
  simp only [create_and_check_measurement]
  cases hf : avail.filter (fun n => decide (n ∉ bl)) with
  | nil =>
    refine ⟨⟨[], by simp⟩, by simp, by simp⟩
  | cons a l =>
    have hmem0 : (a :: l).getD (rands.headD 0 % (a :: l).length) 0 ∈ (a :: l) :=
      getD_mod_mem _ _ (by simp)
    have hmem0' : (a :: l).getD (rands.headD 0 % (a :: l).length) 0 ∉ bl := by
      apply hfil
      rw [hf]
      exact hmem0
    have hfil' : ∀ n ∈ (a :: l), n ∉ bl := by
      intro n hn
      apply hfil
      rw [hf]
      exact hn
    refine ⟨camLoop_blacklist_mono fetch polls (a :: l) _ _ _ _ bl _, ?_, ?_⟩
    · refine camLoop_sel_pred fetch (fun n => n ∉ bl) polls (a :: l) _ _ _ _ bl _
        hfil' ?_
      intro q hq
      simp only [List.mem_singleton] at hq
      rw [hq]
      exact hmem0'
    · intro hnd
      have hnd' : (a :: l).Nodup := by
        rw [← hf]
        exact hnd.filter _
      refine camLoop_sel_fresh fetch polls (a :: l) _ _ _ _ bl _ hnd' hfil' ?_
      intro q hq
      simp only [List.mem_singleton] at hq
      rw [hq]
      exact hmem0'

/-- C8 counterexample: with the duplicated available-probe list `[7, 7]` the
first pick of probe 7 fails terminally (status 6), 7 is blacklisted and one
list occurrence removed — and the retry then selects probe 7 *again* while
the blacklist `[7]` already contains it, contradicting "probe selection for a
new measurement never chooses a probe that is a member of the blacklist at
selection time". -/
theorem c8_counterexample :
    create_and_check_measurement [7, 7] [] [0, 0] [some 100, some 101]
      [some 6, some 4] 0 =
      (.ret (some 0) (some 7), [7], [(7, []), (7, [7])]) ∧
    (7, [7]) ∈ (create_and_check_measurement [7, 7] [] [0, 0]
      [some 100, some 101] [some 6, some 4] 0).2.2 ∧
    (7 : ℕ) ∈ ([7] : List ℕ) := by
  refine ⟨by decide, by decide, by decide⟩

/-- C8 witness: a concrete run (available probes `[3, 4]`, blacklist `[5]`,
immediate status 4) whose single selection avoids both the entry blacklist
and the blacklist at selection time, and whose final blacklist extends the
initial one. -/
theorem c8_witness :
    ((3 : ℕ) ∉ ([5] : List ℕ)) ∧
    (∃ suffix, (create_and_check_measurement [3, 4] [5] [0] [some 1] [some 4]
      9).2.1 = [5] ++ suffix) ∧
    ((3 : ℕ) ∉ ([5] : List ℕ)) :=
  ⟨(c8_blacklist_monotone [3, 4] [5] [0] [some 1] [some 4] 9).2.1 (3, [5])
      (by decide),
    (c8_blacklist_monotone [3, 4] [5] [0] [some 1] [some 4] 9).1,
    (c8_blacklist_monotone [3, 4] [5] [0] [some 1] [some 4] 9).2.2 (by decide)
      (3, [5]) (by decide)⟩

/-- Folding block-append equals appending the flattened blocks. -/
lemma foldl_append_eq_flatten {α β : Type} (g : α → List β) :
    ∀ (xs : List α) (a : List β),
      xs.foldl (fun acc x => acc ++ g x) a = a ++ (xs.map g).flatten := by
  intro xs
  induction xs with
  | nil => intro a; simp
  | cons x xs ih => intro a; simp [ih]

/-- Stable insertion permutes to consing. -/
lemma sInsert_perm {α : Type} (le : α → α → Bool) (x : α) :
    ∀ l : List α, (sInsert le x l).Perm (x :: l) := by
  intro l
  induction l with
  | nil => simp [sInsert]
  | cons y ys ih =>
    simp only [sInsert]
    split_ifs with h
    · exact (ih.cons y).trans (List.Perm.swap x y ys)
    · exact List.Perm.refl _

/-- The insertion fold permutes to appending. -/
lemma foldl_sInsert_perm {α : Type} (le : α → α → Bool) :
    ∀ (l acc : List α),
      (l.foldl (fun a x => sInsert le x a) acc).Perm (acc ++ l) := by
  intro l
  induction l with
  | nil => intro acc; simp
  | cons x l ih =>
    intro acc
    have h1 : ((x :: l).foldl (fun a y => sInsert le y a) acc) =
        l.foldl (fun a y => sInsert le y a) (sInsert le x acc) := rfl
    rw [h1]
    refine (ih (sInsert le x acc)).trans ?_
    refine (((sInsert_perm le x acc).append_right l).trans ?_)
    exact List.perm_middle.symm

/-- The stable sort is a permutation of its input. -/
lemma stableSort_perm {α : Type} (le : α → α → Bool) (l : List α) :
    (stableSort le l).Perm l := by
  simpa [stableSort] using foldl_sInsert_perm le l []

/-- Distinct anchor location ids survive filtering and sorting. -/
lemma sortedResults_ids_nodup (results : List LocationResultS)
    (hnd : (results.map (fun r => r.location_id)).Nodup) :
    ((sortedResults results).map (fun r => r.location_id)).Nodup := by
  have h1 : ((results.filter (fun r => r.rtt.isSome)).map
      (fun r => r.location_id)).Nodup :=
    ((List.filter_sublist results).map _).nodup hnd
  have h2 : (sortedResults results).Perm
      (results.filter (fun r => r.rtt.isSome)) := stableSort_perm _ _
  exact ((h2.map (fun r => r.location_id)).symm).nodup h1

/-- The first minimum lies in the scanned list. -/
lemma minFirstBy_mem {α : Type} (f : α → ℚ) :
    ∀ (xs : List α) (x : α), minFirstBy f x xs ∈ x :: xs := by
  intro xs
  induction xs with
  | nil => intro x; simp [minFirstBy]
  | cons y ys ih =>
    intro x
    have h1 : minFirstBy f x (y :: ys) =
        minFirstBy f (if f y < f x then y else x) ys := rfl
    rw [h1]
    have := ih (if f y < f x then y else x)
    rcases List.mem_cons.mp this with h | h
    · rw [h]
      split_ifs
      · simp
      · simp
    · simp [h]

/-- Taking the first minimum over an enumerated list and projecting agrees
with taking the first minimum over the projections. -/
lemma minFirstBy_snd {β : Type} (f : β → ℚ) :
    ∀ (ps : List (ℕ × β)) (p0 : ℕ × β),
      (minFirstBy (fun p => f p.2) p0 ps).2 =
        minFirstBy f p0.2 (ps.map Prod.snd) := by
  intro ps
  induction ps with
  | nil => intro p0; simp [minFirstBy]
  | cons q ps ih =>
    intro p0
    have h1 : minFirstBy (fun p => f p.2) p0 (q :: ps) =
        minFirstBy (fun p => f p.2) (if f q.2 < f p0.2 then q else p0) ps := rfl
    have h2 : minFirstBy f p0.2 (q.2 :: ps.map Prod.snd) =
        minFirstBy f (if f q.2 < f p0.2 then q.2 else p0.2) (ps.map Prod.snd) := rfl
    rw [List.map_cons, h1, h2, ih]
    congr 1
    split_ifs <;> rfl

/-- Mapping over an enumeration agrees with mapping over the plain list when
the functions agree pointwise on the enumerated pairs. -/
lemma map_enumFrom_eq {α β : Type} (gc : α → β) (gs : ℕ × α → β) :
    ∀ (l : List α) (n : ℕ),
      (∀ p ∈ l.enumFrom n, gs p = gc p.2) →
      (l.enumFrom n).map gs = l.map gc := by
  intro l
  induction l with
  | nil => intro n _; simp
  | cons a l ih =>
    intro n h
    rw [List.enumFrom_cons, List.map_cons, List.map_cons,
      h (n, a) (by simp [List.enumFrom_cons]), ih (n + 1)]
    intro p hp
    exact h p (by simp [List.enumFrom_cons, hp])

/-- Under duplicate-free anchor ids, a match's group key (nearest anchor's
location id) designates exactly the position of its nearest anchor occurrence
in the sorted list. -/
lemma nearId_iff_nearIdx (adist : ℕ → ℕ → ℚ) (r0 : LocationResultS)
    (rtail : List LocationResultS)
    (hnd : ((r0 :: rtail).map (fun r => r.location_id)).Nodup)
    (i : ℕ) (r : LocationResultS) (hir : (i, r) ∈ (r0 :: rtail).enum)
    (m : DomainLabelMatchS) :
    (nearId adist r0 rtail m = some r.location_id ↔
      nearIdx adist r0 rtail m = some i) := by
  by_cases hfeas : feasibleAll adist (r0 :: rtail) m = true
  · simp only [nearId, nearIdx, if_pos hfeas, Option.some.injEq]
    set bp := minFirstBy (fun p => adist p.2.location_id m.location_id)
      (0, r0) (rtail.enumFrom 1) with hbp
    have hsnd : (minFirstBy (fun r' => adist r'.location_id m.location_id)
        r0 rtail) = bp.2 := by
      rw [hbp, minFirstBy_snd (fun r' => adist r'.location_id m.location_id)
        (rtail.enumFrom 1) (0, r0), List.enumFrom_map_snd]
    have hbpmem : bp ∈ (r0 :: rtail).enum := by
      rw [List.enum_cons]
      exact minFirstBy_mem _ (rtail.enumFrom 1) (0, r0)
    have hbpget : (r0 :: rtail)[bp.1]? = some bp.2 :=
      List.mem_enum_iff_getElem?.mp hbpmem
    have hrget : (r0 :: rtail)[i]? = some r :=
      List.mem_enum_iff_getElem?.mp hir
    rw [hsnd]
    constructor
    · intro heq
      have hmap1 : ((r0 :: rtail).map (fun x => x.location_id))[bp.1]? =
          some bp.2.location_id := by
        rw [List.getElem?_map, hbpget]
        rfl
      have hmap2 : ((r0 :: rtail).map (fun x => x.location_id))[i]? =
          some bp.2.location_id := by
        rw [List.getElem?_map, hrget]
        simp [heq]
      have hlt : bp.1 < ((r0 :: rtail).map (fun x => x.location_id)).length := by
        rcases List.getElem?_eq_some.mp hmap1 with ⟨h, _⟩
        exact h
      exact List.getElem?_inj hlt hnd (hmap1.trans hmap2.symm)
    · intro heq
      rw [heq] at hbpget
      rw [hbpget] at hrget
      injection hrget with hr2
      rw [hr2]
  · simp only [nearId, nearIdx, if_neg hfeas]
    simp

/-- Membership in the output of `sort_matches`: exactly the input matches
feasible against every sorted responding anchor. -/
lemma mem_sort_matches_iff (adist : ℕ → ℕ → ℚ) (ms : List DomainLabelMatchS)
    (results : List LocationResultS) (m : DomainLabelMatchS) :
    m ∈ sort_matches adist ms results ↔
      m ∈ ms ∧ feasibleAll adist (sortedResults results) m = true := by
  cases hs : sortedResults results with
  | nil =>
    simp [sort_matches, hs, feasibleAll]
  | cons r0 rtail =>
    simp only [sort_matches, hs]
    rw [foldl_append_eq_flatten]
    simp only [List.nil_append, List.mem_flatten, List.mem_map]
    constructor
    · rintro ⟨g, ⟨r, hr, rfl⟩, hm⟩
      have h1 := List.mem_filter.mp hm
      refine ⟨h1.1, ?_⟩
      have h2 := of_decide_eq_true h1.2
      by_cases hfeas : feasibleAll adist (r0 :: rtail) m = true
      · exact hfeas
      · rw [nearId, if_neg hfeas] at h2
        exact absurd h2 (by simp)
    · rintro ⟨hmem, hfeas⟩
      refine ⟨_, ⟨minFirstBy (fun r' => adist r'.location_id m.location_id)
        r0 rtail, minFirstBy_mem _ rtail r0, rfl⟩, ?_⟩
      refine List.mem_filter.mpr ⟨hmem, ?_⟩
      simp [nearId, hfeas]

/-- C3 (amended): `sort_matches` keeps exactly the candidates whose distance
to every responding anchor stays within `anchor_RTT * 100` (failing one
anchor eliminates the candidate), and — provided the anchor results carry
pairwise-distinct location ids — emits the survivors grouped by their nearest
feasible anchor occurrence, the groups ordered by that anchor's RTT ascending
and the matcher order preserved inside each group (`specRanking`).  When two
anchor results share a location id the emission walks both occurrences and
duplicates that group (see the counterexample), which is why the grouping
statement needs the distinctness hypothesis. -/
theorem c3_candidate_ranking (adist : ℕ → ℕ → ℚ) (ms : List DomainLabelMatchS)
    (results : List LocationResultS) :
    (∀ m, m ∈ sort_matches adist ms results ↔
      m ∈ ms ∧ feasibleAll adist (sortedResults results) m = true) ∧
    ((results.map (fun r => r.location_id)).Nodup →
      sort_matches adist ms results = specRanking adist ms results) := by
  refine ⟨fun m => mem_sort_matches_iff adist ms results m, fun hnd => ?_⟩
  have hnd2 := sortedResults_ids_nodup results hnd
  cases hs : sortedResults results with
  | nil => simp [sort_matches, specRanking, hs]
  | cons r0 rtail =>
    rw [hs] at hnd2
    simp only [sort_matches, specRanking, hs]
    rw [foldl_append_eq_flatten, foldl_append_eq_flatten]
    simp only [List.nil_append]
    congr 1
    have henum : (r0 :: rtail).enum = (r0 :: rtail).enumFrom 0 := rfl
    rw [henum]
    rw [map_enumFrom_eq
      (fun r => ms.filter fun m => decide (nearId adist r0 rtail m =
        some r.location_id))
      (fun ir => ms.filter fun m => decide (nearIdx adist r0 rtail m =
        some ir.1))]
    intro p hp
    rcases p with ⟨i, r⟩
    refine List.filter_congr ?_
    intro m _
    rw [decide_eq_decide]
    exact (nearId_iff_nearIdx adist r0 rtail hnd2 i r hp m).symm

/-- C3 witness: with two anchors of distinct location ids (7 and 8), the code
ranking coincides with the specification's grouping. -/
theorem c3_witness :
    sort_matches dZero [mFix] [aFix1, ⟨8, some 2⟩] =
      specRanking dZero [mFix] [aFix1, ⟨8, some 2⟩] :=
  (c3_candidate_ranking dZero [mFix] [aFix1, ⟨8, some 2⟩]).2 (by decide)

/-- C3 counterexample: two responding anchors sharing location id 7 (as
happens when synthetic anchors for one location are appended repeatedly) make
`sort_matches` emit the single surviving candidate twice — the output is not
the surviving candidates grouped by nearest anchor, refuting the claim for
arbitrary anchor-result lists. -/
theorem c3_counterexample :
    sort_matches dZero [mFix] [aFix1, aFix2] = [mFix, mFix] ∧
    specRanking dZero [mFix] [aFix1, aFix2] = [mFix] ∧
    sort_matches dZero [mFix] [aFix1, aFix2] ≠
      specRanking dZero [mFix] [aFix1, aFix2] := by
  refine ⟨by decide, by decide, by decide⟩
